import Mathlib

/-!
Verification of `src/wrfhydropy/core/utilities.py` (wrf_hydro_py).

Shallow embedding conventions:
* File-system paths are lists of path components (`List String`), mirroring
  `pathlib.PurePath.parts`; `parent` is `dropLast`, `name` is the last
  component, `joinpath` appends a component.
* The `nccmp` subprocess is an opaque environment `run : List String → Proc`
  (argument list to completed process) whose captured stdout is raw bytes;
  `bytes.decode('utf-8')` is an opaque decoder
  `decode : List Nat → Option String` (`none` = `UnicodeDecodeError`);
  `pandas.read_table` is an opaque parser `parse : String → Option Table`
  (`none` = the bare `except:` branch fires).  Python exceptions are
  modelled with `Option`: `none` = the call raises.
-/

set_option autoImplicit false

namespace WrfHydroPy

/-- A completed subprocess (`subprocess.run` result): return code and the
captured standard output, which is raw `bytes` (the `stdout=subprocess.PIPE`
capture), not yet decoded text. -/
structure Proc where
  returncode : Int
  stdout : List Nat
deriving Repr, DecidableEq

/-- A parsed whitespace-delimited table (stand-in for the pandas dataframe). -/
abbrev Table := List (List String)

/-- The value `compare_nc_nccmp` produces: `noDiff` models the implicit
`None` of the `returncode == 0` path, `table` the parsed dataframe, and
`rawWarn` the raw subprocess object returned together with a warning after a
parse failure. -/
inductive CmpOut where
  | noDiff
  | table (t : Table)
  | rawWarn (p : Proc)
deriving Repr, DecidableEq

/-- The `command_list` built in `compare_nc_nccmp` (utilities.py lines
31-45): start from `['nccmp']`, append each option in its loop, append
`'-S'`, append `'-x ' + ','.join(exclude_vars)` when `exclude_vars is not
None`, then the candidate and reference paths.  `exclude_vars = none` models
the Python `None` default. -/
def command_list (nccmp_options : List String) (exclude_vars : Option (List String))
    (candidate_nc reference_nc : String) : List String :=
  let cl := ["nccmp"]
  let cl := nccmp_options.foldl (fun acc item => acc ++ [item]) cl
  let cl := cl ++ ["-S"]
  let cl :=
    match exclude_vars with
    | some vs => cl ++ ["-x " ++ String.intercalate "," vs]
    | none => cl
  cl ++ [candidate_nc] ++ [reference_nc]

/-- `compare_nc_nccmp` (utilities.py lines 10-66): run `nccmp` on the built
command list; on return code 0 fall off the end (`noDiff`).  Otherwise the
captured stdout bytes are first decoded, `proc.stdout.decode('utf-8')` at
line 56 — this sits OUTSIDE the `try`/`except` of lines 60-66, so a
`UnicodeDecodeError` on non-UTF-8 tool output propagates (result `none`);
then the decoded text is parsed as a table, and on parse failure the bare
`except:` warns and the raw process object is returned. -/
def compare_nc_nccmp (run : List String → Proc) (decode : List Nat → Option String)
    (parse : String → Option Table) (candidate_nc reference_nc : String)
    (nccmp_options : List String) (exclude_vars : Option (List String)) :
    Option CmpOut :=
  let proc := run (command_list nccmp_options exclude_vars candidate_nc reference_nc)
  if proc.returncode ≠ 0 then
    match decode proc.stdout with
    | none => none
    | some output =>
      match parse output with
      | some t => some (CmpOut.table t)
      | none => some (CmpOut.rawWarn proc)
  else
    some CmpOut.noDiff

/-- The argument list exactly as claim C2 words it: the exclusion argument is
included only when the exclusion list is non-empty. -/
def claimed_command_list (nccmp_options : List String) (exclude_vars : Option (List String))
    (candidate_nc reference_nc : String) : List String :=
  ["nccmp"] ++ nccmp_options ++ ["-S"] ++
    (match exclude_vars with
     | some vs => if vs = [] then [] else ["-x " ++ String.intercalate "," vs]
     | none => []) ++ [candidate_nc, reference_nc]

/-- The argument list as the amended claim words it: the exclusion argument
is included exactly when an exclusion list is supplied (not `None`), even
when that list is empty. -/
def amended_command_list (nccmp_options : List String) (exclude_vars : Option (List String))
    (candidate_nc reference_nc : String) : List String :=
  ["nccmp"] ++ nccmp_options ++ ["-S"] ++
    (match exclude_vars with
     | some vs => ["-x " ++ String.intercalate "," vs]
     | none => []) ++ [candidate_nc, reference_nc]

theorem foldl_append_singleton {α : Type} (l : List α) (init : List α) :
    l.foldl (fun acc x => acc ++ [x]) init = init ++ l := by
  induction l generalizing init with
  | nil => simp
  | cons x xs ih => simp [List.foldl_cons, ih, List.append_assoc]

/-- C1 counterexample: the claim's "it never raises on a non-zero tool
exit" is false on the code.  With a non-zero exit whose captured stdout
bytes are not valid UTF-8 (the opaque decoder fails on them, as
`bytes.decode('utf-8')` does on `0xff`), `compare_nc_nccmp` raises
(returns `none`): the decode at utilities.py line 56 runs outside the
`try`/`except`, so the `UnicodeDecodeError` propagates to the caller. -/
theorem compare_nc_nccmp_nonzero_can_raise :
    (⟨1, [255]⟩ : Proc).returncode ≠ 0 ∧
    compare_nc_nccmp (fun _ => ⟨1, [255]⟩) (fun _ => none) (fun _ => some [["a"]])
      "c.nc" "r.nc" [] none = none := by
  constructor
  · decide
  · rfl

/-- C1 (amended): when the nccmp subprocess exits 0, `compare_nc_nccmp`
returns nothing (`noDiff`).  When it exits non-zero, its captured stdout
bytes are first decoded as UTF-8 outside the `try`/`except`, so a failing
decode (`UnicodeDecodeError`) propagates as a raise; otherwise the decoded
output is parsed as a whitespace-delimited table with a header row,
returning the parsed table on success, and emitting a warning and returning
the raw subprocess result object on parse failure.  Apart from the decode
step, no raise occurs on a non-zero tool exit. -/
theorem compare_nc_nccmp_cases (run : List String → Proc)
    (decode : List Nat → Option String) (parse : String → Option Table)
    (candidate_nc reference_nc : String) (nccmp_options : List String)
    (exclude_vars : Option (List String)) :
    let proc := run (command_list nccmp_options exclude_vars candidate_nc reference_nc)
    let out := compare_nc_nccmp run decode parse candidate_nc reference_nc
      nccmp_options exclude_vars
    (proc.returncode = 0 → out = some CmpOut.noDiff) ∧
    (proc.returncode ≠ 0 → decode proc.stdout = none → out = none) ∧
    (proc.returncode ≠ 0 → ∀ s t, decode proc.stdout = some s → parse s = some t →
      out = some (CmpOut.table t)) ∧
    (proc.returncode ≠ 0 → ∀ s, decode proc.stdout = some s → parse s = none →
      out = some (CmpOut.rawWarn proc)) := by
  refine ⟨fun h0 => ?_, fun hne hd => ?_, fun hne s t hd hp => ?_, fun hne s hd hp => ?_⟩ <;>
    simp only [compare_nc_nccmp] <;> simp_all

theorem compare_nc_nccmp_cases_witness :
    compare_nc_nccmp (fun _ => ⟨0, []⟩) (fun _ => none) (fun _ => none)
      "c.nc" "r.nc" [] none = some CmpOut.noDiff ∧
    compare_nc_nccmp (fun _ => ⟨1, [255]⟩) (fun _ => none) (fun _ => none)
      "c.nc" "r.nc" [] none = none ∧
    compare_nc_nccmp (fun _ => ⟨1, [111]⟩) (fun _ => some "out") (fun _ => some [["a"]])
      "c.nc" "r.nc" [] none = some (CmpOut.table [["a"]]) ∧
    compare_nc_nccmp (fun _ => ⟨1, [111]⟩) (fun _ => some "out") (fun _ => none)
      "c.nc" "r.nc" [] none = some (CmpOut.rawWarn ⟨1, [111]⟩) :=
  ⟨(compare_nc_nccmp_cases (fun _ => ⟨0, []⟩) (fun _ => none) (fun _ => none)
      "c.nc" "r.nc" [] none).1 rfl,
   (compare_nc_nccmp_cases (fun _ => ⟨1, [255]⟩) (fun _ => none) (fun _ => none)
      "c.nc" "r.nc" [] none).2.1 (by decide) rfl,
   (compare_nc_nccmp_cases (fun _ => ⟨1, [111]⟩) (fun _ => some "out")
      (fun _ => some [["a"]]) "c.nc" "r.nc" [] none).2.2.1 (by decide) "out" [["a"]] rfl rfl,
   (compare_nc_nccmp_cases (fun _ => ⟨1, [111]⟩) (fun _ => some "out") (fun _ => none)
      "c.nc" "r.nc" [] none).2.2.2 (by decide) "out" rfl rfl⟩

/-- C2 counterexample: with a supplied but empty exclusion list the code
still appends the exclusion argument `"-x "`, so the command list differs
from the claim's list (which omits the argument when the list is empty). -/
theorem command_list_empty_exclude_ne_claimed :
    command_list ["--data"] (some []) "cand.nc" "ref.nc" ≠
      claimed_command_list ["--data"] (some []) "cand.nc" "ref.nc" := by
  decide

/-- C2 (amended): the argument list is exactly the tool name, each flag in
order, `-S`, then the exclusion argument `'-x ' ++ comma-join` — included
exactly when an exclusion list is supplied (not `None`), even if empty —
then the candidate path followed by the reference path. -/
theorem command_list_eq_amended (nccmp_options : List String)
    (exclude_vars : Option (List String)) (candidate_nc reference_nc : String) :
    command_list nccmp_options exclude_vars candidate_nc reference_nc =
      amended_command_list nccmp_options exclude_vars candidate_nc reference_nc := by
  cases exclude_vars <;>
    simp [command_list, amended_command_list, foldl_append_singleton, List.append_assoc]

/-- A file-system path as its component list (`pathlib.PurePath.parts`). -/
abbrev FsPath := List String

/-- `p.parent` of a path: drop the last component. -/
def pathParent (p : FsPath) : FsPath := p.dropLast

/-- `p.name` of a path: the last component (`''` for an empty path, as in
pathlib). -/
def pathName (p : FsPath) : String := p.getLastD ""

/-- `compare_ncfiles` (utilities.py lines 69-98): take `ref_dir` from
`reference_files[0].parent` (an `IndexError`, modelled as `none`, when the
reference list is empty), then for each candidate in order check whether
`ref_dir.joinpath(candidate.name)` is a file; if so append the pair
comparison's result, otherwise record a warning (modelled as the
`(candidate, ref_dir)` pair named in the message) and append nothing.
The filesystem is the opaque predicate `is_file`; the pair comparator is
the opaque `pair_cmp` (in the source, `compare_nc_nccmp`). -/
def compare_ncfiles (is_file : FsPath → Bool) (pair_cmp : FsPath → FsPath → CmpOut)
    (candidate_files reference_files : List FsPath) :
    Option (List CmpOut × List (FsPath × FsPath)) :=
  match reference_files with
  | [] => none
  | r :: _ =>
    let ref_dir := pathParent r
    some (candidate_files.foldl
      (fun st file_candidate =>
        let file_reference := ref_dir ++ [pathName file_candidate]
        if is_file file_reference then
          (st.1 ++ [pair_cmp file_candidate file_reference], st.2)
        else
          (st.1, st.2 ++ [(file_candidate, ref_dir)]))
      ([], []))

theorem compare_ncfiles_foldl_spec (is_file : FsPath → Bool)
    (pair_cmp : FsPath → FsPath → CmpOut) (ref_dir : FsPath) :
    ∀ (cands : List FsPath) (res : List CmpOut) (warns : List (FsPath × FsPath)),
    cands.foldl
      (fun st file_candidate =>
        let file_reference := ref_dir ++ [pathName file_candidate]
        if is_file file_reference then
          (st.1 ++ [pair_cmp file_candidate file_reference], st.2)
        else
          (st.1, st.2 ++ [(file_candidate, ref_dir)]))
      (res, warns) =
      (res ++ (cands.filter (fun fc => is_file (ref_dir ++ [pathName fc]))).map
          (fun fc => pair_cmp fc (ref_dir ++ [pathName fc])),
       warns ++ (cands.filter (fun fc => ¬ is_file (ref_dir ++ [pathName fc]))).map
          (fun fc => (fc, ref_dir))) := by
  intro cands
  induction cands with
  | nil => intro res warns; simp
  | cons fc rest ih =>
    intro res warns
    by_cases h : is_file (ref_dir ++ [pathName fc]) <;>
      simp [List.foldl_cons, h, ih, List.filter_cons, List.append_assoc]

theorem compare_ncfiles_spec (is_file : FsPath → Bool)
    (pair_cmp : FsPath → FsPath → CmpOut) (cands : List FsPath) (r : FsPath)
    (rs : List FsPath) :
    compare_ncfiles is_file pair_cmp cands (r :: rs) =
      some ((cands.filter (fun fc => is_file (pathParent r ++ [pathName fc]))).map
              (fun fc => pair_cmp fc (pathParent r ++ [pathName fc])),
            (cands.filter (fun fc => ¬ is_file (pathParent r ++ [pathName fc]))).map
              (fun fc => (fc, pathParent r))) := by
  simp [compare_ncfiles, compare_ncfiles_foldl_spec]

/-- C3: when every candidate's filename has a matching reference file, the
result list has exactly the candidates' length and preserves candidate
order (entry i is the comparison of candidate i); when exactly one candidate
is unmatched, a warning naming that file and the searched directory is
recorded, no placeholder is appended, and the result list has length N-1. -/
theorem compare_ncfiles_lengths (is_file : FsPath → Bool)
    (pair_cmp : FsPath → FsPath → CmpOut) (cands : List FsPath) (r : FsPath)
    (rs : List FsPath) :
    (((∀ fc ∈ cands, is_file (pathParent r ++ [pathName fc])) →
      compare_ncfiles is_file pair_cmp cands (r :: rs) =
        some (cands.map (fun fc => pair_cmp fc (pathParent r ++ [pathName fc])), []) ∧
      ∀ res, compare_ncfiles is_file pair_cmp cands (r :: rs) = some res →
        res.1.length = cands.length) ∧
     ∀ l₁ fc₀ l₂, cands = l₁ ++ fc₀ :: l₂ →
       (∀ fc ∈ l₁, is_file (pathParent r ++ [pathName fc])) →
       (∀ fc ∈ l₂, is_file (pathParent r ++ [pathName fc])) →
       ¬ is_file (pathParent r ++ [pathName fc₀]) →
       ∀ res, compare_ncfiles is_file pair_cmp cands (r :: rs) = some res →
         res.1.length = cands.length - 1 ∧ res.2 = [(fc₀, pathParent r)]) := by
  constructor
  · intro hall
    constructor
    · rw [compare_ncfiles_spec]
      have hfilter : cands.filter (fun fc => is_file (pathParent r ++ [pathName fc])) = cands :=
        List.filter_eq_self.mpr (fun fc hfc => by simp [hall fc hfc])
      have hnone : cands.filter (fun fc => ¬ is_file (pathParent r ++ [pathName fc])) = [] := by
        apply List.filter_eq_nil_iff.mpr
        intro fc hfc
        simp [hall fc hfc]
      rw [hfilter, hnone]
      simp
    · intro res hres
      rw [compare_ncfiles_spec] at hres
      have hfilter : cands.filter (fun fc => is_file (pathParent r ++ [pathName fc])) = cands :=
        List.filter_eq_self.mpr (fun fc hfc => by simp [hall fc hfc])
      rw [hfilter] at hres
      have := congrArg (fun o => o.map Prod.fst) hres
      simp at this
      simp [← this]
  · intro l₁ fc₀ l₂ hc h₁ h₂ h₀ res hres
    subst hc
    rw [compare_ncfiles_spec] at hres
    have hf₁ : l₁.filter (fun fc => is_file (pathParent r ++ [pathName fc])) = l₁ :=
      List.filter_eq_self.mpr (fun fc hfc => by simp [h₁ fc hfc])
    have hf₂ : l₂.filter (fun fc => is_file (pathParent r ++ [pathName fc])) = l₂ :=
      List.filter_eq_self.mpr (fun fc hfc => by simp [h₂ fc hfc])
    have hn₁ : l₁.filter (fun fc => ¬ is_file (pathParent r ++ [pathName fc])) = [] := by
      apply List.filter_eq_nil_iff.mpr
      intro fc hfc
      simp [h₁ fc hfc]
    have hn₂ : l₂.filter (fun fc => ¬ is_file (pathParent r ++ [pathName fc])) = [] := by
      apply List.filter_eq_nil_iff.mpr
      intro fc hfc
      simp [h₂ fc hfc]
    rw [List.filter_append, List.filter_append, List.filter_cons, List.filter_cons] at hres
    simp only [h₀, decide_False, cond_false, hf₁, hf₂, hn₁, hn₂, decide_True, cond_true,
      not_false_iff] at hres
    rcases (Option.some.injEq _ _).mp hres.symm with h
    constructor
    · have := congrArg (fun p => p.1.length) h
      simp at this
      simp [this, List.length_append]
    · have := congrArg Prod.snd h
      simpa using this

theorem compare_ncfiles_lengths_witness :
    compare_ncfiles (fun p => p ≠ ["d", "x"]) (fun _ _ => CmpOut.noDiff)
        [["c", "a"], ["c", "b"]] [["d", "r"]] =
      some ([CmpOut.noDiff, CmpOut.noDiff], []) ∧
    ∀ res, compare_ncfiles (fun p => p ≠ ["d", "x"]) (fun _ _ => CmpOut.noDiff)
        [["c", "a"], ["c", "x"]] [["d", "r"]] = some res →
      res.1.length = 1 ∧ res.2 = [(["c", "x"], ["d"])] :=
  ⟨((compare_ncfiles_lengths (fun p => p ≠ ["d", "x"]) (fun _ _ => CmpOut.noDiff)
      [["c", "a"], ["c", "b"]] ["d", "r"] []).1 (by decide)).1,
   (compare_ncfiles_lengths (fun p => p ≠ ["d", "x"]) (fun _ _ => CmpOut.noDiff)
      [["c", "a"], ["c", "x"]] ["d", "r"] []).2 [["c", "a"]] ["c", "x"] [] rfl
      (by decide) (by decide) (by decide)⟩

/-- C4 counterexample: candidate `b.nc` is not a member of the supplied
reference file list (which holds only `ref/a.nc`), yet because a file named
`b.nc` exists in the inferred reference directory the code performs the
comparison anyway — the membership test claimed is never made. -/
theorem compare_ncfiles_compares_nonmember :
    let is_file : FsPath → Bool := fun p => p = ["ref", "b.nc"]
    let pc : FsPath → FsPath → CmpOut := fun _ _ => CmpOut.noDiff
    let reference_files : List FsPath := [["ref", "a.nc"]]
    (compare_ncfiles is_file pc [["cand", "b.nc"]] reference_files).map
        (fun res => res.1.length) = some 1 ∧
    ¬ pathName ["cand", "b.nc"] ∈ reference_files.map pathName := by
  constructor
  · rfl
  · decide

/-- C4 (amended): a comparison is performed for a candidate exactly when a
file of identical name exists on the filesystem in the reference directory
inferred from the first reference file's parent; membership of the supplied
reference-file list is not consulted. -/
theorem compare_ncfiles_filesystem_check (is_file : FsPath → Bool)
    (pair_cmp : FsPath → FsPath → CmpOut) (cands : List FsPath) (r : FsPath)
    (rs : List FsPath) :
    compare_ncfiles is_file pair_cmp cands (r :: rs) =
      some ((cands.filter (fun fc => is_file (pathParent r ++ [pathName fc]))).map
              (fun fc => pair_cmp fc (pathParent r ++ [pathName fc])),
            (cands.filter (fun fc => ¬ is_file (pathParent r ++ [pathName fc]))).map
              (fun fc => (fc, pathParent r))) :=
  compare_ncfiles_spec is_file pair_cmp cands r rs

/-- C9: with an empty reference list, `reference_files[0]` raises an
`IndexError` (modelled as `none`) before any candidate is examined — for
every candidate list, including the empty one.  Since `none` is not
`some ([], [])`, in particular no empty result list is returned. -/
theorem compare_ncfiles_empty_refs (is_file : FsPath → Bool)
    (pair_cmp : FsPath → FsPath → CmpOut) (cands : List FsPath) :
    compare_ncfiles is_file pair_cmp cands [] = none :=
  rfl

/-- Modelled from the spec: a WRF-Hydro NetCDF output file as opened by the
external `xarray.open_dataset` — it carries a `reference_time` coordinate
whose first value is the grouping key, and a `time` axis given here as the
list of its coordinate values. -/
structure NwmFile where
  ref_time : Nat
  times : List Nat
deriving Repr, DecidableEq

/-- One step of the `ds_dict` construction in `open_nwmdataset` (utilities.py
lines 137-146): if `ref_time` is already a key, append the dataset to the
existing list at that slot, else create a new slot at the end (Python dicts
preserve insertion order). -/
def insertFile (d : List (Nat × List NwmFile)) (f : NwmFile) : List (Nat × List NwmFile) :=
  match d with
  | [] => [(f.ref_time, [f])]
  | (k, v) :: rest =>
    if k = f.ref_time then (k, v ++ [f]) :: rest else (k, v) :: insertFile rest f

/-- The `ds_dict` of `open_nwmdataset`: group the files by the first value of
their `reference_time` coordinate, keys in insertion order. -/
def groupByRefTime (files : List NwmFile) : List (Nat × List NwmFile) :=
  files.foldl insertFile []

/-- Modelled from the spec: the external `xr.concat(..., dim='time')` on a
group — the time axes of the member datasets are concatenated in list
order. -/
def concatTime (group : List NwmFile) : List Nat :=
  (group.map NwmFile.times).flatten

/-- `open_nwmdataset` (utilities.py lines 123-164), with the external xarray
concatenations modelled from the spec: the result is the list of
(reference_time, concatenated time axis) pairs — the outer list is the
`reference_time` dimension, each second component a forecast's `time`
axis. -/
def open_nwmdataset (paths : List NwmFile) : List (Nat × List Nat) :=
  (groupByRefTime paths).map (fun p => (p.1, concatTime p.2))

/-- C5: for three input files, two with `reference_time` key T1 (in some
interleaving that keeps the two T1 files in order) and one with key T2 ≠ T1,
the output's `reference_time` dimension has length 2, the T1 slice's time
axis is the concatenation of the two T1 files' time axes (per-file order
preserved), so its length is the sum of their time lengths. -/
theorem open_nwmdataset_two_one (files : List NwmFile) (f1 f2 f3 : NwmFile)
    (T1 T2 : Nat) (h1 : f1.ref_time = T1) (h2 : f2.ref_time = T1)
    (h3 : f3.ref_time = T2) (hne : T1 ≠ T2)
    (harr : files = [f1, f2, f3] ∨ files = [f1, f3, f2] ∨ files = [f3, f1, f2]) :
    (open_nwmdataset files).length = 2 ∧
    (open_nwmdataset files).lookup T1 = some (f1.times ++ f2.times) ∧
    (open_nwmdataset files).lookup T2 = some f3.times ∧
    (f1.times ++ f2.times).length = f1.times.length + f2.times.length := by
  have hne' : T2 ≠ T1 := fun h => hne h.symm
  have e1 : (T2 == T1) = false := by simp [hne']
  have e2 : (T1 == T2) = false := by simp [hne]
  have e3 : (T1 == T1) = true := by simp
  have e4 : (T2 == T2) = true := by simp
  rcases harr with h | h | h <;> subst h <;>
    refine ⟨?_, ?_, ?_, by simp⟩ <;>
      simp [open_nwmdataset, groupByRefTime, insertFile, concatTime, h1, h2, h3, hne, hne',
        List.lookup, e1, e2, e3, e4]

theorem open_nwmdataset_two_one_witness :
    (open_nwmdataset [⟨5, [0, 1]⟩, ⟨5, [2]⟩, ⟨9, [0]⟩]).length = 2 ∧
    (open_nwmdataset [⟨5, [0, 1]⟩, ⟨5, [2]⟩, ⟨9, [0]⟩]).lookup 5 =
      some ([0, 1] ++ [2]) ∧
    (open_nwmdataset [⟨5, [0, 1]⟩, ⟨5, [2]⟩, ⟨9, [0]⟩]).lookup 9 = some [0] ∧
    (([0, 1] : List Nat) ++ [2]).length = ([0, 1] : List Nat).length + ([2] : List Nat).length :=
  open_nwmdataset_two_one [⟨5, [0, 1]⟩, ⟨5, [2]⟩, ⟨9, [0]⟩] ⟨5, [0, 1]⟩ ⟨5, [2]⟩ ⟨9, [0]⟩
    5 9 rfl rfl rfl (by decide) (Or.inl rfl)

/-- Modelled from the spec: the result of the external `f90nml.read` — "a
nested mapping from section name to mapping from key to scalar value"
(spec §3), as an association list.  Values are scalars, modelled as `Int`. -/
abbrev Namelist := List (String × List (String × Int))

/-- Modelled from the spec: f90nml produces a mapping, so section names are
unique and key names are unique within a section. -/
def nmlWF (nl : Namelist) : Prop :=
  (nl.map Prod.fst).Nodup ∧ ∀ sec ∈ nl, ((sec.2.map Prod.fst).Nodup)

/-- One entry of the structural diff (the categories DeepDiff reports on two
nested mappings). -/
inductive DiffEntry where
  | valueChanged (sec key : String) (oldVal newVal : Int)
  | itemAdded (sec key : String)
  | itemRemoved (sec key : String)
deriving Repr, DecidableEq

/-- Look a (section, key) pair up in a namelist tree. -/
def lookupNml (nl : Namelist) (s k : String) : Option Int :=
  match nl.lookup s with
  | some kvs => kvs.lookup k
  | none => none

/-- Modelled from the spec: the `values_changed` entries DeepDiff reports
for the keys of one section of `a` against `b`. -/
def sectionValuesChanged (b : Namelist) (s : String) (kvs : List (String × Int)) :
    List DiffEntry :=
  kvs.filterMap (fun kv =>
    match lookupNml b s kv.1 with
    | some v2 => if v2 = kv.2 then none else some (DiffEntry.valueChanged s kv.1 kv.2 v2)
    | none => none)

/-- Modelled from the spec: all `values_changed` entries of DeepDiff(a, b) —
keys present in both trees whose values differ. -/
def valuesChanged (a b : Namelist) : List DiffEntry :=
  a.flatMap (fun sec => sectionValuesChanged b sec.1 sec.2)

/-- Keys of one section of `src` that are absent from `other`. -/
def sectionMissing (other : Namelist) (mk : String → String → DiffEntry) (s : String)
    (kvs : List (String × Int)) : List DiffEntry :=
  kvs.filterMap (fun kv =>
    match lookupNml other s kv.1 with
    | some _ => none
    | none => some (mk s kv.1))

/-- Modelled from the spec: DeepDiff's `dictionary_item_added` — keys of `b`
absent from `a`. -/
def itemsAdded (a b : Namelist) : List DiffEntry :=
  b.flatMap (fun sec => sectionMissing a DiffEntry.itemAdded sec.1 sec.2)

/-- Modelled from the spec: DeepDiff's `dictionary_item_removed` — keys of
`a` absent from `b`. -/
def itemsRemoved (a b : Namelist) : List DiffEntry :=
  a.flatMap (fun sec => sectionMissing b DiffEntry.itemRemoved sec.1 sec.2)

/-- Modelled from the spec: the external `deepdiff.DeepDiff(a, b,
ignore_order=True)` converted by `dict(...)` — a mapping holding only the
non-empty diff categories. -/
def deepDiff (a b : Namelist) : List (String × List DiffEntry) :=
  (if valuesChanged a b = [] then [] else [("values_changed", valuesChanged a b)]) ++
  (if itemsAdded a b = [] then [] else [("dictionary_item_added", itemsAdded a b)]) ++
  (if itemsRemoved a b = [] then [] else [("dictionary_item_removed", itemsRemoved a b)])

/-- `diff_namelist` (utilities.py lines 103-120): read both namelist files
(the parser/filesystem is the opaque `readNml`), DeepDiff them, return the
result as a plain mapping. -/
def diff_namelist (readNml : String → Namelist) (namelist1 namelist2 : String) :
    List (String × List DiffEntry) :=
  deepDiff (readNml namelist1) (readNml namelist2)

/-- Replace the value at key `k` of section `s` (the "copy with one key's
value changed" of the claim). -/
def setNmlValue (nl : Namelist) (s k : String) (v' : Int) : Namelist :=
  nl.map (fun sec =>
    if sec.1 = s then (sec.1, sec.2.map (fun kv => if kv.1 = k then (kv.1, v') else kv))
    else sec)

theorem lookup_eq_of_mem_nodup {α β : Type} [BEq α] [LawfulBEq α] :
    ∀ (l : List (α × β)) (k : α) (v : β),
      (l.map Prod.fst).Nodup → (k, v) ∈ l → l.lookup k = some v := by
  intro l
  induction l with
  | nil => intro k v _ hm; cases hm
  | cons p t ih =>
    intro k v hnd hm
    rcases List.mem_cons.mp hm with h | h
    · cases h
      simp [List.lookup]
    · have hk : k ∈ t.map Prod.fst := List.mem_map.mpr ⟨(k, v), h, rfl⟩
      have hne : ¬ (k == p.1) = true := by
        intro hb
        have : k = p.1 := eq_of_beq hb
        subst this
        exact (List.nodup_cons.mp (by simpa using hnd)).1 hk
      have := ih k v (List.nodup_cons.mp (by simpa using hnd)).2 h
      simpa [List.lookup, hne] using this

theorem lookupNml_eq_of_mem (nl : Namelist) (s k : String) (kvs : List (String × Int))
    (v : Int) (hwf : nmlWF nl) (hs : (s, kvs) ∈ nl) (hk : (k, v) ∈ kvs) :
    lookupNml nl s k = some v := by
  have h1 : nl.lookup s = some kvs := lookup_eq_of_mem_nodup nl s kvs hwf.1 hs
  have h2 : kvs.lookup k = some v :=
    lookup_eq_of_mem_nodup kvs k v (hwf.2 (s, kvs) hs) hk
  simp [lookupNml, h1, h2]

theorem sectionValuesChanged_eq_nil (b : Namelist) (s : String)
    (kvs : List (String × Int)) (h : ∀ kv ∈ kvs, lookupNml b s kv.1 = some kv.2) :
    sectionValuesChanged b s kvs = [] := by
  apply List.filterMap_eq_nil_iff.mpr
  intro kv hkv
  simp [h kv hkv]

theorem valuesChanged_self (nl : Namelist) (hwf : nmlWF nl) :
    valuesChanged nl nl = [] := by
  apply List.flatMap_eq_nil_iff.mpr
  intro sec hsec
  apply sectionValuesChanged_eq_nil
  intro kv hkv
  exact lookupNml_eq_of_mem nl sec.1 kv.1 sec.2 kv.2 hwf
    (by simpa using hsec) (by simpa using hkv)

theorem sectionMissing_eq_nil (other : Namelist) (mk : String → String → DiffEntry)
    (s : String) (kvs : List (String × Int))
    (h : ∀ kv ∈ kvs, (lookupNml other s kv.1).isSome) :
    sectionMissing other mk s kvs = [] := by
  apply List.filterMap_eq_nil_iff.mpr
  intro kv hkv
  rcases Option.isSome_iff_exists.mp (h kv hkv) with ⟨v, hv⟩
  simp [sectionMissing, hv]

theorem itemsAdded_self (nl : Namelist) (hwf : nmlWF nl) : itemsAdded nl nl = [] := by
  apply List.flatMap_eq_nil_iff.mpr
  intro sec hsec
  apply sectionMissing_eq_nil
  intro kv hkv
  rw [lookupNml_eq_of_mem nl sec.1 kv.1 sec.2 kv.2 hwf (by simpa using hsec)
    (by simpa using hkv)]
  rfl

theorem itemsRemoved_self (nl : Namelist) (hwf : nmlWF nl) : itemsRemoved nl nl = [] := by
  apply List.flatMap_eq_nil_iff.mpr
  intro sec hsec
  apply sectionMissing_eq_nil
  intro kv hkv
  rw [lookupNml_eq_of_mem nl sec.1 kv.1 sec.2 kv.2 hwf (by simpa using hsec)
    (by simpa using hkv)]
  rfl

theorem lookup_mapValue (kvs : List (String × Int)) (k k' : String) (v' : Int) :
    (kvs.map (fun kv => if kv.1 = k then (kv.1, v') else kv)).lookup k' =
      if k' = k then (kvs.lookup k').map (fun _ => v') else kvs.lookup k' := by
  induction kvs with
  | nil => by_cases h : k' = k <;> simp [List.lookup, h]
  | cons kv t ih =>
    obtain ⟨a, b⟩ := kv
    rw [List.map_cons]
    by_cases h1 : a = k
    · subst h1
      rw [show (if (a, b).1 = a then ((a, b).1, v') else (a, b)) = (a, v') by simp]
      by_cases h2 : k' = a
      · subst h2
        simp [List.lookup]
      · have hbeq : (k' == a) = false := by simp [h2]
        simp [List.lookup, hbeq, ih, h2]
    · rw [show (if (a, b).1 = k then ((a, b).1, v') else (a, b)) = (a, b) by simp [h1]]
      by_cases h2 : k' = a
      · subst h2
        have hne : ¬ k' = k := fun h => h1 (h ▸ rfl)
        simp [List.lookup, hne]
      · have hbeq : (k' == a) = false := by simp [h2]
        simp [List.lookup, hbeq, ih]

theorem lookup_setNmlValue (nl : Namelist) (s k : String) (v' : Int) (s' : String) :
    (setNmlValue nl s k v').lookup s' =
      (nl.lookup s').map (fun kvs =>
        if s' = s then kvs.map (fun kv => if kv.1 = k then (kv.1, v') else kv) else kvs) := by
  induction nl with
  | nil => simp [setNmlValue, List.lookup]
  | cons sec t ih =>
    obtain ⟨a, kvs⟩ := sec
    rw [setNmlValue, List.map_cons]
    by_cases h1 : a = s
    · subst h1
      rw [show (if ((a, kvs) : String × List (String × Int)).1 = a then
          (((a, kvs) : String × List (String × Int)).1,
            kvs.map (fun kv => if kv.1 = k then (kv.1, v') else kv))
          else (a, kvs)) = (a, kvs.map (fun kv => if kv.1 = k then (kv.1, v') else kv)) by simp]
      by_cases h2 : s' = a
      · subst h2
        simp [List.lookup, setNmlValue]
      · have hbeq : (s' == a) = false := by simp [h2]
        have ih' := ih
        rw [setNmlValue] at ih'
        simp [List.lookup, hbeq, ih', h2]
    · rw [show (if ((a, kvs) : String × List (String × Int)).1 = s then
          (((a, kvs) : String × List (String × Int)).1,
            kvs.map (fun kv => if kv.1 = k then (kv.1, v') else kv))
          else (a, kvs)) = (a, kvs) by simp [h1]]
      by_cases h2 : s' = a
      · subst h2
        have hne : ¬ s' = s := fun h => h1 (h ▸ rfl)
        simp [List.lookup, hne]
      · have hbeq : (s' == a) = false := by simp [h2]
        have ih' := ih
        rw [setNmlValue] at ih'
        simp [List.lookup, hbeq, ih']

theorem lookupNml_setNmlValue (nl : Namelist) (s k : String) (v' : Int) (s' k' : String) :
    lookupNml (setNmlValue nl s k v') s' k' =
      if s' = s ∧ k' = k then (lookupNml nl s k).map (fun _ => v')
      else lookupNml nl s' k' := by
  unfold lookupNml
  rw [lookup_setNmlValue]
  cases hl : nl.lookup s' with
  | none =>
    by_cases hs : s' = s
    · subst hs
      simp [hl]
    · simp [hs]
  | some kvs =>
    by_cases hs : s' = s
    · subst hs
      by_cases hk : k' = k
      · subst hk
        simp [hl, lookup_mapValue]
      · simp [hl, lookup_mapValue, hk]
    · simp [hl, hs]

theorem sectionValuesChanged_setNmlValue_other (nl : Namelist) (s k : String) (v' : Int)
    (s₀ : String) (kvs₀ : List (String × Int)) (hs : s₀ ≠ s)
    (h : ∀ kv ∈ kvs₀, lookupNml nl s₀ kv.1 = some kv.2) :
    sectionValuesChanged (setNmlValue nl s k v') s₀ kvs₀ = [] := by
  apply List.filterMap_eq_nil_iff.mpr
  intro kv hkv
  rw [lookupNml_setNmlValue]
  simp [hs, h kv hkv]

theorem sectionValuesChanged_setNmlValue_hit (nl : Namelist) (s k : String) (v v' : Int)
    (kvs : List (String × Int)) (hnd : (kvs.map Prod.fst).Nodup) (hk : (k, v) ∈ kvs)
    (hnev : v' ≠ v) (hlook : ∀ kv ∈ kvs, lookupNml nl s kv.1 = some kv.2) :
    sectionValuesChanged (setNmlValue nl s k v') s kvs =
      [DiffEntry.valueChanged s k v v'] := by
  induction kvs with
  | nil => cases hk
  | cons kv t ih =>
    have hndt : (t.map Prod.fst).Nodup := (List.nodup_cons.mp (by simpa using hnd)).2
    have hnmem : kv.1 ∉ t.map Prod.fst := (List.nodup_cons.mp (by simpa using hnd)).1
    rcases List.mem_cons.mp hk with h | h
    · have hkv1 : kv.1 = k := by rw [← h]
      have hkv2 : kv.2 = v := by rw [← h]
      have hlook1 : lookupNml nl s k = some v := by
        have hx := hlook kv (List.mem_cons_self kv t)
        rw [hkv1, hkv2] at hx
        exact hx
      have hrest : sectionValuesChanged (setNmlValue nl s k v') s t = [] := by
        apply List.filterMap_eq_nil_iff.mpr
        intro kv' hkv'
        have hne : kv'.1 ≠ k := by
          intro hEq
          exact hnmem (by
            rw [hkv1, ← hEq]
            exact List.mem_map.mpr ⟨kv', hkv', rfl⟩)
        rw [lookupNml_setNmlValue]
        simp [hne, hlook kv' (List.mem_cons_of_mem kv hkv')]
      have hlk : lookupNml (setNmlValue nl s k v') s kv.1 = some v' := by
        rw [hkv1, lookupNml_setNmlValue]
        simp [hlook1]
      have hstep : sectionValuesChanged (setNmlValue nl s k v') s (kv :: t) =
          DiffEntry.valueChanged s kv.1 kv.2 v' ::
            sectionValuesChanged (setNmlValue nl s k v') s t := by
        simp only [sectionValuesChanged, List.filterMap_cons, hlk]
        rw [if_neg (by rw [hkv2]; exact hnev)]
      rw [hstep, hrest, hkv1, hkv2]
    · have hne : kv.1 ≠ k := by
        intro hEq
        exact hnmem (hEq ▸ List.mem_map.mpr ⟨(k, v), h, rfl⟩)
      have hlk : lookupNml (setNmlValue nl s k v') s kv.1 = some kv.2 := by
        rw [lookupNml_setNmlValue]
        simp [hne, hlook kv (List.mem_cons_self kv t)]
      have hrec := ih hndt h (fun kv' hkv' => hlook kv' (List.mem_cons_of_mem kv hkv'))
      have hstep : sectionValuesChanged (setNmlValue nl s k v') s (kv :: t) =
          sectionValuesChanged (setNmlValue nl s k v') s t := by
        simp [sectionValuesChanged, List.filterMap_cons, hlk]
      rw [hstep, hrec]

theorem eq_of_mem_nodup_keys {α β : Type} [BEq α] [LawfulBEq α] (l : List (α × β))
    (hnd : (l.map Prod.fst).Nodup) (x y : α × β) (hx : x ∈ l) (hy : y ∈ l)
    (hxy : x.1 = y.1) : x = y := by
  have h1 : l.lookup x.1 = some x.2 := lookup_eq_of_mem_nodup l x.1 x.2 hnd hx
  have h2 : l.lookup y.1 = some y.2 := lookup_eq_of_mem_nodup l y.1 y.2 hnd hy
  rw [hxy, h2] at h1
  exact Prod.ext hxy (Option.some.injEq _ _ ▸ h1).symm

theorem flatMap_sections_single (b : Namelist) (s : String) (e : DiffEntry) :
    ∀ (a : Namelist), (a.map Prod.fst).Nodup →
      (∀ sec ∈ a, sec.1 ≠ s → sectionValuesChanged b sec.1 sec.2 = []) →
      (∀ sec ∈ a, sec.1 = s → sectionValuesChanged b sec.1 sec.2 = [e]) →
      s ∈ a.map Prod.fst →
      a.flatMap (fun sec => sectionValuesChanged b sec.1 sec.2) = [e] := by
  intro a
  induction a with
  | nil => intro _ _ _ hmem; cases hmem
  | cons sec t ih =>
    intro hnd hother hhit hmem
    rw [List.map_cons] at hnd hmem
    have hnd' := List.nodup_cons.mp hnd
    by_cases hsec : sec.1 = s
    · have htail : t.flatMap (fun x => sectionValuesChanged b x.1 x.2) = [] := by
        apply List.flatMap_eq_nil_iff.mpr
        intro y hy
        apply hother y (List.mem_cons_of_mem _ hy)
        intro hys
        exact hnd'.1 (by
          rw [hsec, ← hys]
          exact List.mem_map.mpr ⟨y, hy, rfl⟩)
      rw [List.flatMap_cons, hhit sec (List.mem_cons_self _ _) hsec, htail]
      simp
    · have hmem' : s ∈ t.map Prod.fst := by
        rcases List.mem_cons.mp hmem with h | h
        · exact absurd h.symm hsec
        · exact h
      rw [List.flatMap_cons, hother sec (List.mem_cons_self _ _) hsec]
      rw [List.nil_append]
      exact ih hnd'.2 (fun y hy => hother y (List.mem_cons_of_mem _ hy))
        (fun y hy => hhit y (List.mem_cons_of_mem _ hy)) hmem'

theorem valuesChanged_setNmlValue (nl : Namelist) (s k : String) (v v' : Int)
    (kvs : List (String × Int)) (hwf : nmlWF nl) (hs : (s, kvs) ∈ nl)
    (hk : (k, v) ∈ kvs) (hnev : v' ≠ v) :
    valuesChanged nl (setNmlValue nl s k v') = [DiffEntry.valueChanged s k v v'] := by
  apply flatMap_sections_single (setNmlValue nl s k v') s
    (DiffEntry.valueChanged s k v v') nl hwf.1
  · intro sec hsec hne
    exact sectionValuesChanged_setNmlValue_other nl s k v' sec.1 sec.2 hne
      (fun kv hkv => lookupNml_eq_of_mem nl sec.1 kv.1 sec.2 kv.2 hwf
        (by simpa using hsec) (by simpa using hkv))
  · intro sec hsec heq
    have : sec = (s, kvs) := eq_of_mem_nodup_keys nl hwf.1 sec (s, kvs) hsec hs heq
    subst this
    apply sectionValuesChanged_setNmlValue_hit nl s k v v' kvs
      (hwf.2 (s, kvs) hs) hk hnev
    intro kv hkv
    exact lookupNml_eq_of_mem nl s kv.1 kvs kv.2 hwf hs hkv
  · exact List.mem_map.mpr ⟨(s, kvs), hs, rfl⟩

theorem itemsAdded_setNmlValue (nl : Namelist) (s k : String) (v' : Int)
    (hwf : nmlWF nl) : itemsAdded nl (setNmlValue nl s k v') = [] := by
  apply List.flatMap_eq_nil_iff.mpr
  intro sec' hsec'
  rcases List.mem_map.mp hsec' with ⟨sec, hsec, hf⟩
  apply sectionMissing_eq_nil
  intro kv' hkv'
  by_cases h1 : sec.1 = s
  · rw [if_pos h1] at hf
    have hkv'' : kv' ∈ sec.2.map (fun kv => if kv.1 = k then (kv.1, v') else kv) := by
      have hsnd : sec'.2 = sec.2.map (fun kv => if kv.1 = k then (kv.1, v') else kv) := by
        rw [← hf]
      rw [hsnd] at hkv'
      exact hkv'
    rcases List.mem_map.mp hkv'' with ⟨kv₀, hkv₀, hg⟩
    have hfst : kv'.1 = kv₀.1 := by
      rw [← hg]
      by_cases h2 : kv₀.1 = k <;> simp [h2]
    have hsec1 : sec'.1 = sec.1 := by rw [← hf]
    rw [hsec1, hfst,
      lookupNml_eq_of_mem nl sec.1 kv₀.1 sec.2 kv₀.2 hwf (by simpa using hsec)
        (by simpa using hkv₀)]
    rfl
  · rw [if_neg h1] at hf
    subst hf
    rw [lookupNml_eq_of_mem nl sec.1 kv'.1 sec.2 kv'.2 hwf (by simpa using hsec)
      (by simpa using hkv')]
    rfl

theorem itemsRemoved_setNmlValue (nl : Namelist) (s k : String) (v' : Int)
    (hwf : nmlWF nl) : itemsRemoved nl (setNmlValue nl s k v') = [] := by
  apply List.flatMap_eq_nil_iff.mpr
  intro sec hsec
  apply sectionMissing_eq_nil
  intro kv hkv
  rw [lookupNml_setNmlValue]
  by_cases h1 : sec.1 = s ∧ kv.1 = k
  · rw [if_pos h1]
    have : lookupNml nl s k = some kv.2 := by
      rw [← h1.1, ← h1.2]
      exact lookupNml_eq_of_mem nl sec.1 kv.1 sec.2 kv.2 hwf (by simpa using hsec)
        (by simpa using hkv)
    rw [this]
    rfl
  · rw [if_neg h1]
    rw [lookupNml_eq_of_mem nl sec.1 kv.1 sec.2 kv.2 hwf (by simpa using hsec)
      (by simpa using hkv)]
    rfl

theorem deepDiff_self (nl : Namelist) (hwf : nmlWF nl) : deepDiff nl nl = [] := by
  simp [deepDiff, valuesChanged_self nl hwf, itemsAdded_self nl hwf, itemsRemoved_self nl hwf]

theorem deepDiff_setNmlValue (nl : Namelist) (s k : String) (v v' : Int)
    (kvs : List (String × Int)) (hwf : nmlWF nl) (hs : (s, kvs) ∈ nl)
    (hk : (k, v) ∈ kvs) (hnev : v' ≠ v) :
    deepDiff nl (setNmlValue nl s k v') =
      [("values_changed", [DiffEntry.valueChanged s k v v'])] := by
  simp [deepDiff, valuesChanged_setNmlValue nl s k v v' kvs hwf hs hk hnev,
    itemsAdded_setNmlValue nl s k v' hwf, itemsRemoved_setNmlValue nl s k v' hwf]

/-- C6: diffing a namelist file against itself yields an empty differences
mapping; diffing it against a copy in which exactly one key's value is
changed yields a differences mapping with exactly one value-change entry,
for that key. -/
theorem diff_namelist_self_and_one_change (readNml : String → Namelist)
    (p p' : String) (nl : Namelist) (s k : String) (v v' : Int)
    (kvs : List (String × Int)) (hwf : nmlWF nl)
    (hp : readNml p = nl) (hp' : readNml p' = setNmlValue nl s k v')
    (hs : (s, kvs) ∈ nl) (hk : (k, v) ∈ kvs) (hnev : v' ≠ v) :
    diff_namelist readNml p p = [] ∧
    diff_namelist readNml p p' =
      [("values_changed", [DiffEntry.valueChanged s k v v'])] := by
  constructor
  · rw [diff_namelist, hp]
    exact deepDiff_self nl hwf
  · rw [diff_namelist, hp, hp']
    exact deepDiff_setNmlValue nl s k v v' kvs hwf hs hk hnev

theorem diff_namelist_self_and_one_change_witness :
    let nl : Namelist := [("s1", [("k1", 1), ("k2", 2)]), ("s2", [("k3", 3)])]
    let readNml : String → Namelist :=
      fun q => if q = "a.nml" then nl else setNmlValue nl "s1" "k1" 7
    diff_namelist readNml "a.nml" "a.nml" = [] ∧
    diff_namelist readNml "a.nml" "b.nml" =
      [("values_changed", [DiffEntry.valueChanged "s1" "k1" 1 7])] :=
  diff_namelist_self_and_one_change
    (fun q => if q = "a.nml"
      then [("s1", [("k1", 1), ("k2", 2)]), ("s2", [("k3", 3)])]
      else setNmlValue [("s1", [("k1", 1), ("k2", 2)]), ("s2", [("k3", 3)])] "s1" "k1" 7)
    "a.nml" "b.nml" [("s1", [("k1", 1), ("k2", 2)]), ("s2", [("k3", 3)])] "s1" "k1" 1 7
    [("k1", 1), ("k2", 2)] (by constructor <;> decide) (by decide) (by decide)
    (by decide) (by decide) (by decide)

/-- Modelled from pathlib's documented contract: `p.relative_to(base)`
returns the components of `p` after `base` and raises `ValueError`
(modelled as `none`) when `p`'s components do not start with `base`'s. -/
def relative_to (p base : FsPath) : Option FsPath :=
  if base.isPrefixOf p then some (p.drop base.length) else none

/-- An element of a list-valued run-object attribute: a `pathlib.PosixPath`,
a `WrfHydroStatic` (path-bearing wrapper), or any other value (which the
`type(item) is ...` checks of `__make_relative__` skip). -/
inductive Item where
  | posixPath (p : FsPath)
  | static (p : FsPath)
  | other
deriving Repr, DecidableEq

/-- A run-object attribute of one of the shapes `__make_relative__`
inspects: a single `PosixPath`, a plain `list`, a `WrfHydroTs` collection,
or anything else (left untouched). -/
inductive AttrValue where
  | path (p : FsPath)
  | plainList (items : List Item)
  | ts (items : List Item)
  | other
deriving Repr, DecidableEq

/-- The path carried by a path-bearing item, if any. -/
def itemPath : Item → Option FsPath
  | Item.posixPath p => some p
  | Item.static p => some p
  | Item.other => none

/-- Rebuild an item with a new path, keeping its constructor (pathlib's
`relative_to` returns an instance of the receiver's class). -/
def relabelItem : Item → FsPath → Item
  | Item.posixPath _, r => Item.posixPath r
  | Item.static _, r => Item.static r
  | Item.other, _ => Item.other

/-- The inner loop of the list branches of `__make_relative__` (utilities.py
lines 184-197): walk the items carrying the accumulating `relative_list`
(`acc`) and the attribute's pending new value (`attrVal`; `none` = the
`setattr` has not fired yet).  The `setattr` sits inside the `if`, so the
attribute is only overwritten once a path-bearing item has been appended;
non-path items are skipped; a failing `relative_to` raises (outer
`none`). -/
def relLoop (base : FsPath) : List Item → List Item → Option (List Item) →
    Option (Option (List Item))
  | [], _, attrVal => some attrVal
  | it :: rest, acc, attrVal =>
    match itemPath it with
    | some p =>
      match relative_to p base with
      | some r =>
        relLoop base rest (acc ++ [relabelItem it r]) (some (acc ++ [relabelItem it r]))
      | none => none
    | none => relLoop base rest acc attrVal

/-- One attribute's processing in `__make_relative__` (utilities.py lines
180-200): a plain `list` and a `WrfHydroTs` run the inner loop (the latter
re-wrapped as a `WrfHydroTs`); a single `PosixPath` is replaced by its
relative form; anything else is untouched.  `none` = `relative_to`
raised. -/
def makeRelativeAttr (base : FsPath) : AttrValue → Option AttrValue
  | AttrValue.plainList items =>
    match relLoop base items [] none with
    | none => none
    | some none => some (AttrValue.plainList items)
    | some (some l) => some (AttrValue.plainList l)
  | AttrValue.ts items =>
    match relLoop base items [] none with
    | none => none
    | some none => some (AttrValue.ts items)
    | some (some l) => some (AttrValue.ts l)
  | AttrValue.path p =>
    match relative_to p base with
    | some r => some (AttrValue.path r)
    | none => none
  | AttrValue.other => some AttrValue.other

/-- `__make_relative__` over the modelled fragment of a run object: its
non-dunder attributes as an association list, each processed in order by
`makeRelativeAttr`, a raised error aborting the walk (the `simulation`
recursion of lines 202-204 descends into a nested object outside this
fragment). -/
def makeRelativeObj (base : FsPath) :
    List (String × AttrValue) → Option (List (String × AttrValue))
  | [] => some []
  | attr :: rest =>
    match makeRelativeAttr base attr.2 with
    | none => none
    | some v =>
      match makeRelativeObj base rest with
      | none => none
      | some rest' => some ((attr.1, v) :: rest')

theorem relLoop_no_path (base : FsPath) :
    ∀ (items acc : List Item) (attrVal : Option (List Item)),
      (∀ it ∈ items, itemPath it = none) →
      relLoop base items acc attrVal = some attrVal := by
  intro items
  induction items with
  | nil => intro acc attrVal _; rfl
  | cons it rest ih =>
    intro acc attrVal h
    have h0 := h it (List.mem_cons_self _ _)
    simp only [relLoop, h0]
    exact ih acc attrVal (fun x hx => h x (List.mem_cons_of_mem _ hx))

theorem relLoop_all_paths (base : FsPath) :
    ∀ (items acc : List Item) (attrVal : Option (List Item)),
      (∀ it ∈ items, ∀ p, itemPath it = some p → base.isPrefixOf p) →
      items.filterMap itemPath ≠ [] →
      relLoop base items acc attrVal =
        some (some (acc ++ items.filterMap
          (fun it => (itemPath it).map (fun p => relabelItem it (p.drop base.length))))) := by
  intro items
  induction items with
  | nil => intro acc attrVal _ hne; exact absurd rfl hne
  | cons it rest ih =>
    intro acc attrVal h hne
    cases hip : itemPath it with
    | none =>
      have hne' : rest.filterMap itemPath ≠ [] := by
        simpa [List.filterMap_cons, hip] using hne
      simp only [relLoop, hip]
      rw [ih acc attrVal (fun x hx => h x (List.mem_cons_of_mem _ hx)) hne']
      simp [List.filterMap_cons, hip]
    | some p =>
      have hpref : base.isPrefixOf p = true := h it (List.mem_cons_self _ _) p hip
      have hrel : relative_to p base = some (p.drop base.length) := by
        simp [relative_to, hpref]
      simp only [relLoop, hip, hrel]
      by_cases hrest : rest.filterMap itemPath = []
      · have hnp : ∀ x ∈ rest, itemPath x = none := List.filterMap_eq_nil_iff.mp hrest
        have hrest2 : rest.filterMap
            (fun it => (itemPath it).map (fun p => relabelItem it (p.drop base.length))) = [] := by
          apply List.filterMap_eq_nil_iff.mpr
          intro x hx
          rw [hnp x hx]
          rfl
        rw [relLoop_no_path base rest _ _ hnp]
        simp [List.filterMap_cons, hip, hrest2]
      · rw [ih _ _ (fun x hx => h x (List.mem_cons_of_mem _ hx)) hrest]
        simp [List.filterMap_cons, hip, List.append_assoc]

theorem makeRelativeObj_of_fixed (base : FsPath) (obj : List (String × AttrValue))
    (h : ∀ attr ∈ obj, makeRelativeAttr base attr.2 = some attr.2) :
    makeRelativeObj base obj = some obj := by
  induction obj with
  | nil => rfl
  | cons attr t ih =>
    simp only [makeRelativeObj, h attr (List.mem_cons_self _ _),
      ih (fun y hy => h y (List.mem_cons_of_mem _ hy))]

theorem filterMap_rel_map_posixPath (base : FsPath) (ps : List FsPath) :
    (ps.map Item.posixPath).filterMap
        (fun it => (itemPath it).map (fun p => relabelItem it (p.drop base.length))) =
      ps.map (fun q => Item.posixPath (q.drop base.length)) := by
  induction ps with
  | nil => rfl
  | cons q t ih =>
    show Item.posixPath (q.drop base.length) ::
        (t.map Item.posixPath).filterMap
          (fun it => (itemPath it).map (fun p => relabelItem it (p.drop base.length))) =
      Item.posixPath (q.drop base.length) ::
        t.map (fun q => Item.posixPath (q.drop base.length))
    rw [ih]

theorem filterMap_itemPath_map_posixPath (ps : List FsPath) :
    (ps.map Item.posixPath).filterMap itemPath = ps := by
  induction ps with
  | nil => rfl
  | cons q t ih =>
    show q :: (t.map Item.posixPath).filterMap itemPath = q :: t
    rw [ih]

/-- C7: for a run object with a single `PosixPath` attribute whose
components extend the base (e.g. `/a/b/c/d` over base `/a/b`),
`__make_relative__` replaces it by the path relative to the base (`c/d`);
for a list attribute of such paths every element is converted
equivalently. -/
theorem makeRelative_path_and_list (name : String) (base p : FsPath) (ps : List FsPath)
    (hp : base.isPrefixOf p = true) (hps : ∀ q ∈ ps, base.isPrefixOf q = true) :
    makeRelativeObj base [(name, AttrValue.path p)] =
      some [(name, AttrValue.path (p.drop base.length))] ∧
    makeRelativeObj base [(name, AttrValue.plainList (ps.map Item.posixPath))] =
      some [(name, AttrValue.plainList
        (ps.map (fun q => Item.posixPath (q.drop base.length))))] := by
  constructor
  · have hrel : relative_to p base = some (p.drop base.length) := by
      simp [relative_to, hp]
    simp [makeRelativeObj, makeRelativeAttr, hrel]
  · rcases ps with _ | ⟨q, t⟩
    · simp [makeRelativeObj, makeRelativeAttr, relLoop]
    · have hne : ((q :: t).map Item.posixPath).filterMap itemPath ≠ [] := by
        rw [filterMap_itemPath_map_posixPath]
        simp
      have hpre : ∀ it ∈ (q :: t).map Item.posixPath, ∀ r, itemPath it = some r →
          base.isPrefixOf r = true := by
        intro it hit r hr
        rcases List.mem_map.mp hit with ⟨q', hq', hq'eq⟩
        rw [← hq'eq] at hr
        simp only [itemPath] at hr
        rw [← (Option.some.injEq _ _).mp hr]
        exact hps q' hq'
      have hloop := relLoop_all_paths base ((q :: t).map Item.posixPath) [] none hpre hne
      rw [filterMap_rel_map_posixPath, List.map_cons] at hloop
      simp [makeRelativeObj, makeRelativeAttr, hloop]

theorem makeRelative_path_and_list_witness :
    makeRelativeObj ["/", "a", "b"] [("restart_file", AttrValue.path ["/", "a", "b", "c", "d"])] =
      some [("restart_file", AttrValue.path (["/", "a", "b", "c", "d"].drop
        (["/", "a", "b"] : FsPath).length))] ∧
    makeRelativeObj ["/", "a", "b"]
        [("restart_file", AttrValue.plainList ([["/", "a", "b", "x"]].map Item.posixPath))] =
      some [("restart_file", AttrValue.plainList
        ([["/", "a", "b", "x"]].map (fun q => Item.posixPath
          (q.drop (["/", "a", "b"] : FsPath).length))))] :=
  makeRelative_path_and_list "restart_file" ["/", "a", "b"] ["/", "a", "b", "c", "d"]
    [["/", "a", "b", "x"]] (by decide) (by decide)

/-- An attribute value the relativizer leaves untouched: not a single path,
and any list/collection it holds has no path-bearing items. -/
def attrNoPath : AttrValue → Prop
  | AttrValue.path _ => False
  | AttrValue.plainList items => ∀ it ∈ items, itemPath it = none
  | AttrValue.ts items => ∀ it ∈ items, itemPath it = none
  | AttrValue.other => True

/-- C8 counterexample: applying `__make_relative__` twice with the same base
is not the same as applying it once — the first pass turns `/a/b/c/d` into
`c/d`, and the second pass raises (`relative_to` fails, modelled `none`)
because `c/d` no longer starts with `/a/b`. -/
theorem makeRelative_twice_raises :
    makeRelativeObj ["/", "a", "b"]
        [("restart_file", AttrValue.path ["/", "a", "b", "c", "d"])] =
      some [("restart_file", AttrValue.path ["c", "d"])] ∧
    makeRelativeObj ["/", "a", "b"] [("restart_file", AttrValue.path ["c", "d"])] = none := by
  constructor <;> rfl

/-- C8 (amended): re-applying `__make_relative__` with the same base is not
idempotent in general — on any path attribute the first pass relativized,
the second pass raises, because the now-relative path no longer starts with
the base; applying twice equals applying once exactly when no attribute
carries a path (then both passes leave the object unchanged). -/
theorem makeRelative_twice (base : FsPath) (obj : List (String × AttrValue))
    (name : String) (p : FsPath) :
    ((∀ attr ∈ obj, attrNoPath attr.2) →
      makeRelativeObj base obj = some obj ∧
      (makeRelativeObj base obj).bind (makeRelativeObj base) = some obj) ∧
    (base.isPrefixOf p = true → base.isPrefixOf (p.drop base.length) = false →
      makeRelativeObj base [(name, AttrValue.path p)] =
        some [(name, AttrValue.path (p.drop base.length))] ∧
      (makeRelativeObj base [(name, AttrValue.path p)]).bind (makeRelativeObj base) =
        none) := by
  constructor
  · intro hnp
    have hfix : makeRelativeObj base obj = some obj := by
      apply makeRelativeObj_of_fixed
      intro attr hattr
      have h := hnp attr hattr
      cases hv : attr.2 with
      | path q =>
        rw [hv] at h
        exact h.elim
      | plainList items =>
        rw [hv] at h
        have hl : relLoop base items [] none = some none :=
          relLoop_no_path base items [] none h
        simp [makeRelativeAttr, hl]
      | ts items =>
        rw [hv] at h
        have hl : relLoop base items [] none = some none :=
          relLoop_no_path base items [] none h
        simp [makeRelativeAttr, hl]
      | other => simp [makeRelativeAttr]
    exact ⟨hfix, by rw [hfix, Option.some_bind, hfix]⟩
  · intro hp hnp
    have hrel : relative_to p base = some (p.drop base.length) := by
      simp [relative_to, hp]
    have h1 : makeRelativeObj base [(name, AttrValue.path p)] =
        some [(name, AttrValue.path (p.drop base.length))] := by
      simp [makeRelativeObj, makeRelativeAttr, hrel]
    refine ⟨h1, ?_⟩
    rw [h1, Option.some_bind]
    have hrel2 : relative_to (p.drop base.length) base = none := by
      simp [relative_to, hnp]
    simp [makeRelativeObj, makeRelativeAttr, hrel2]

theorem makeRelative_twice_witness :
    (makeRelativeObj ["/", "a", "b"] [("n", AttrValue.other)] =
        some [("n", AttrValue.other)] ∧
      (makeRelativeObj ["/", "a", "b"] [("n", AttrValue.other)]).bind
          (makeRelativeObj ["/", "a", "b"]) = some [("n", AttrValue.other)]) ∧
    (makeRelativeObj ["/", "a", "b"] [("m", AttrValue.path ["/", "a", "b", "c"])] =
        some [("m", AttrValue.path ["c"])] ∧
      (makeRelativeObj ["/", "a", "b"] [("m", AttrValue.path ["/", "a", "b", "c"])]).bind
          (makeRelativeObj ["/", "a", "b"]) = none) :=
  ⟨(makeRelative_twice ["/", "a", "b"] [("n", AttrValue.other)] "m" ["/", "a", "b", "c"]).1
      (by
        intro attr hattr
        rw [List.mem_singleton.mp hattr]
        trivial),
   (makeRelative_twice ["/", "a", "b"] [("n", AttrValue.other)] "m" ["/", "a", "b", "c"]).2
      (by decide) (by decide)⟩

/-- C10: in the plain-list branch, elements that are neither a `PosixPath`
nor a `WrfHydroStatic` are silently dropped from the replacement list (the
result is the filterMap over path-bearing elements only), and a list with no
path-bearing elements is left completely unchanged — the attribute is only
overwritten after at least one path element has been collected. -/
theorem makeRelative_list_drops_and_preserves (base : FsPath) (items : List Item)
    (hpre : ∀ it ∈ items, ∀ p, itemPath it = some p → base.isPrefixOf p = true) :
    (items.filterMap itemPath = [] →
      makeRelativeAttr base (AttrValue.plainList items) =
        some (AttrValue.plainList items)) ∧
    (items.filterMap itemPath ≠ [] →
      makeRelativeAttr base (AttrValue.plainList items) =
        some (AttrValue.plainList (items.filterMap
          (fun it => (itemPath it).map (fun p => relabelItem it (p.drop base.length)))))) := by
  constructor
  · intro hnil
    have hnp : ∀ it ∈ items, itemPath it = none := List.filterMap_eq_nil_iff.mp hnil
    have := relLoop_no_path base items [] none hnp
    simp [makeRelativeAttr, this]
  · intro hne
    have := relLoop_all_paths base items [] none hpre hne
    simp [makeRelativeAttr, this]

theorem makeRelative_list_drops_and_preserves_witness :
    makeRelativeAttr ["/", "a"]
        (AttrValue.plainList [Item.other, Item.posixPath ["/", "a", "x"], Item.other]) =
      some (AttrValue.plainList [Item.posixPath ["x"]]) ∧
    makeRelativeAttr ["/", "a"] (AttrValue.plainList [Item.other]) =
      some (AttrValue.plainList [Item.other]) :=
  ⟨(makeRelative_list_drops_and_preserves ["/", "a"]
      [Item.other, Item.posixPath ["/", "a", "x"], Item.other]
      (by
        intro it hit p hp
        fin_cases hit
        · exact absurd hp (by simp [itemPath])
        · rw [← (Option.some.injEq _ _).mp hp]
          decide
        · exact absurd hp (by simp [itemPath]))).2 (by decide),
   (makeRelative_list_drops_and_preserves ["/", "a"] [Item.other]
      (by
        intro it hit p hp
        fin_cases hit
        exact absurd hp (by simp [itemPath]))).1 (by decide)⟩

end WrfHydroPy
